import Mathlib

/-!
Verification development for the DMArchiver core (`dmarchiver/core.py`).

The Python code is shallowly embedded: Python strings are modeled as lists of
characters (`Str := List Char`), matching Python's code-point based ordering
and slicing; `os.linesep` is modeled as a single newline (Linux), under which
the `replace(chr(10), os.linesep)` call in `write_conversation` is the
identity and files are modeled as lists of lines.  `datetime.fromtimestamp`
is modeled in UTC.  HTML-fragment parsing (lxml) is abstracted by the
`FragKind` outcome of parsing one fragment: a direct message (author,
timestamp, and its content elements, each element modeled by the string its
Python `str()` rendering produces), a conversation entry, a fragment matching
neither CSS pattern, a parse failure (any exception other than
KeyboardInterrupt), or a KeyboardInterrupt raised during parsing.
-/

namespace DMArchiver

/-- Python strings, modeled as their list of characters (code points). -/
abbrev Str := List Char

/-- ASCII single quote, used by the fallback text of `_process_tweets`. -/
def squote : Char := Char.ofNat 39

/-- Digit character for a value below ten. -/
def digitChar (n : Nat) : Char := Char.ofNat (48 + n)

/-- Digits of a positive number accumulated most-significant-first; `fuel`
    bounds the recursion and `n + 1` fuel always suffices. -/
def natToStrCore : Nat → Nat → Str → Str
  | 0, _, acc => acc
  | fuel + 1, n, acc =>
    if n = 0 then acc else natToStrCore fuel (n / 10) (digitChar (n % 10) :: acc)

/-- Decimal rendering of a natural number (Python `str(int)` for nonnegative values). -/
def natToStr (n : Nat) : Str := if n = 0 then "0".data else natToStrCore (n + 1) n []

/-- Zero-pad to two digits, as `strftime` does for `%m`, `%d`, `%H`, `%M`, `%S`. -/
def pad2 (n : Nat) : Str := if n < 10 then "0".data ++ natToStr n else natToStr n

/-- Zero-pad to four digits, as `strftime` does for `%Y`. -/
def pad4 (n : Nat) : Str :=
  if n < 10 then "000".data ++ natToStr n
  else if n < 100 then "00".data ++ natToStr n
  else if n < 1000 then "0".data ++ natToStr n
  else natToStr n

/-- Civil date (year, month, day) from days since 1970-01-01 (UTC). -/
def civilFromDays (z0 : Nat) : Nat × Nat × Nat :=
  let z := z0 + 719468
  let era := z / 146097
  let doe := z % 146097
  let yoe := (doe - doe / 1460 + doe / 36524 - doe / 146096) / 365
  let y := yoe + era * 400
  let doy := doe - (365 * yoe + yoe / 4 - yoe / 100)
  let mp := (5 * doy + 2) / 153
  let d := doy - (153 * mp + 2) / 5 + 1
  let m := if mp < 10 then mp + 3 else mp - 9
  (if m ≤ 2 then y + 1 else y, m, d)

/-- Model of `datetime.datetime.fromtimestamp(ts).strftime(chr(37) + "Y-...")`:
    the `[YYYY-MM-DD HH:MM:SS]` body used for transcript lines, in UTC. -/
def formatTimestamp (ts : Nat) : Str :=
  pad4 (civilFromDays (ts / 86400)).1 ++
    ("-".data ++ (pad2 (civilFromDays (ts / 86400)).2.1 ++
      ("-".data ++ (pad2 (civilFromDays (ts / 86400)).2.2 ++
        (" ".data ++ (pad2 (ts % 86400 / 3600) ++
          (":".data ++ (pad2 (ts % 86400 % 3600 / 60) ++
            (":".data ++ pad2 (ts % 86400 % 60))))))))))

/-- Numeric value of a digit string (Python `int` on the id strings). -/
def strToNat (s : Str) : Nat := s.foldl (fun a c => a * 10 + (c.toNat - 48)) 0

/-- Python string comparison: lexicographic on code points. -/
def pyLt : Str → Str → Bool
  | [], [] => false
  | [], _ :: _ => true
  | _ :: _, [] => false
  | a :: as, b :: bs =>
    if a.toNat < b.toNat then true
    else if b.toNat < a.toNat then false
    else pyLt as bs

/-- Insert one key into a list already sorted in descending Python-string order. -/
def insertDesc (x : Str) : List Str → List Str
  | [] => [x]
  | y :: ys => if pyLt y x then x :: y :: ys else y :: insertDesc x ys

/-- Model of `sorted(keys, reverse=True)` on the string keys of a page. -/
def sortDesc (l : List Str) : List Str := l.foldr insertDesc []

/-- Python whitespace stripped by `str.strip()` (ASCII part). -/
def isPyWs (c : Char) : Bool :=
  c == ' ' || c == '\t' || c == '\n' || c == '\r' || c == Char.ofNat 11 || c == Char.ofNat 12

/-- Left part of `str.strip()`. -/
def stripL (l : Str) : Str := l.dropWhile isPyWs

/-- Right part of `str.strip()`. -/
def stripR (l : Str) : Str := (l.reverse.dropWhile isPyWs).reverse

/-- Model of Python `str.strip()`. -/
def pyStrip (l : Str) : Str := stripR (stripL l)

/-- Outcome of parsing one raw message fragment (abstraction of the lxml
    processing in `Crawler._process_tweets`):
    a direct message with avatar author, footer timestamp and content
    elements (each element modeled by its rendered string), a conversation
    entry, a fragment matching neither container pattern, an exception, or
    a KeyboardInterrupt raised while parsing. -/
inductive FragKind where
  | message (author timeStamp : Str) (elements : List Str)
  | sysEntry (text : Str)
  | noMatch
  | failure
  | interrupt
deriving DecidableEq, Repr

/-- One raw entry of a conversation page: the raw HTML fragment string plus
    the outcome its parse would produce. -/
structure Fragment where
  raw : Str
  kind : FragKind
deriving DecidableEq, Repr

/-- An entry of `Conversation.tweets`: a `DirectMessage`, a
    `DMConversationEntry` (text already stripped by its constructor), or the
    leftover empty string when neither container pattern matched
    (`message` keeps its initial value and is still stored). -/
inductive Entry where
  | directMessage (tweetId timeStamp author : Str) (elements : List Str)
  | conversationEntry (tweetId : Str) (text : Str)
  | strEntry (s : Str)
deriving DecidableEq, Repr

/-- Attribute access `tweet.tweet_id`; `none` models the `AttributeError`
    raised when the stored value is a plain string. -/
def Entry.tweetIdOpt : Entry → Option Str
  | .directMessage i _ _ _ => some i
  | .conversationEntry i _ => some i
  | .strEntry _ => none

/-- Text of the fallback `DMConversationEntry` built for a failed fragment
    (before the constructor strips it). -/
def fallbackText (tweetId raw : Str) : Str :=
  "[ParseError] Parsing of tweet ".data ++ [squote] ++ tweetId ++ [squote] ++
    " failed. Raw HTML: ".data ++ raw

/-- The entry `_process_tweets` stores for one fragment (the non-interrupt
    kinds).  `DMConversationEntry.__init__` strips its text. -/
def parseEntry (tweetId : Str) (f : Fragment) : Entry :=
  match f.kind with
  | .message a ts els => .directMessage tweetId ts a els
  | .sysEntry t => .conversationEntry tweetId (pyStrip t)
  | .noMatch => .strEntry []
  | .failure => .conversationEntry tweetId (pyStrip (fallbackText tweetId f.raw))
  | .interrupt => .strEntry []

/-- Dictionary lookup `tweets[tweet_id]` on the raw page. -/
def lookupFrag : List (Str × Fragment) → Str → Option Fragment
  | [], _ => none
  | (k, v) :: rest, id => if k = id then some v else lookupFrag rest id

/-- Lookup in the produced conversation set. -/
def lookupEntry : List (Str × Entry) → Str → Option Entry
  | [], _ => none
  | (k, v) :: rest, id => if k = id then some v else lookupEntry rest id

/-- The loop body of `Crawler._process_tweets` over the descending-sorted key
    list: stop (setting the previous-limit flag) on the stored marker id,
    stop on a KeyboardInterrupt raised during a parse, otherwise store the
    parsed entry and continue. -/
def processGo (tweets : List (Str × Fragment)) (maxId : Str) :
    List Str → List (Str × Entry) × Bool
  | [] => ([], false)
  | id :: rest =>
    if id = maxId then ([], true)
    else
      match lookupFrag tweets id with
      | none => processGo tweets maxId rest
      | some f =>
        if f.kind = FragKind.interrupt then ([], true)
        else
          let r := processGo tweets maxId rest
          ((id, parseEntry id f) :: r.1, r.2)

/-- Model of `Crawler._process_tweets`: sort the page's keys in descending
    string order, then process them in that order.  Returns the conversation
    set in insertion order together with the `_max_id_found` flag. -/
def processTweets (tweets : List (Str × Fragment)) (maxId : Str) :
    List (Str × Entry) × Bool :=
  processGo tweets maxId (sortDesc (tweets.map Prod.fst))

/-- Marker tag prepended to the resume line (16 characters). -/
def markerTag : Str := "[LatestTweetID] ".data

/-- Model of the regex match for the marker line: anchored tag followed by at
    least one digit; the match group is the maximal digit run. -/
def parseMarkerId (line : Str) : Option Str :=
  if line.take 16 == markerTag then
    let ds := (line.drop 16).takeWhile (fun c => c.isDigit)
    if ds.isEmpty then none else some ds
  else none

/-- A line that the marker regex accepts. -/
def isMarkerLine (l : Str) : Bool := (parseMarkerId l).isSome

/-- Model of `Crawler._get_latest_tweet_id`.  The argument is the transcript
    file (`none` when absent, which the `IOError` handler turns into the
    sentinel).  Reading `lines[-1]` of an existing empty file raises an
    uncaught `IndexError`, modeled by the `none` result. -/
def getLatestTweetId : Option (List Str) → Option Str
  | none => some "0".data
  | some lines =>
    match lines.getLast? with
    | none => none
    | some last =>
      match parseMarkerId last with
      | some mid => some mid
      | none => some "0".data

/-- Concatenation of the rendered elements of a message, one trailing space
    each, as the element loop of `write_conversation` builds it. -/
def elemsBlob (els : List Str) : Str := els.foldl (fun b e => b ++ e ++ " ".data) []

/-- One `DirectMessage` transcript line: header plus elements, with the final
    character (the trailing space) removed by the `[:-1]` slice. -/
def renderDM (timeStamp author : Str) (els : List Str) : Str :=
  ("[".data ++ (formatTimestamp (strToNat timeStamp) ++
    ("] <".data ++ (author ++ ("> ".data ++ elemsBlob els))))).dropLast

/-- The line one entry contributes to the file buffer; a plain-string entry
    matches neither type-name branch and contributes nothing. -/
def renderEntry : Entry → Option Str
  | .directMessage _ ts a els => some (renderDM ts a els)
  | .conversationEntry _ t => some ("[DMConversationEntry] ".data ++ t)
  | .strEntry _ => none

/-- Model of `Conversation.write_conversation`.  `tweets` is
    `self.tweets` in insertion order, `maxId` the `max_id` argument and
    `oldLines` the existing file's lines.  With no entries nothing is
    written; otherwise the reversed entries are rendered, the marker line is
    built from the `tweet_id` of the last iterated entry (the first inserted
    one; `none` models the `AttributeError` when it is a plain string), and
    the file is either rewritten without its last line and appended to
    (`maxId` not the sentinel) or created fresh. -/
def writeConversation (tweets : List (Str × Entry)) (maxId : Str)
    (oldLines : List Str) : Option (List Str) :=
  match tweets with
  | [] => some oldLines
  | t0 :: _ =>
    let contentLines := tweets.reverse.filterMap (fun p => renderEntry p.2)
    match t0.2.tweetIdOpt with
    | none => none
    | some mid =>
      let newPart := contentLines ++ [markerTag ++ mid]
      if maxId = "0".data then some newPart
      else some (oldLines.dropLast ++ newPart)

/-- One error object of a response's `errors` array. -/
structure RespError where
  code : Nat
  message : Str
deriving DecidableEq, Repr

/-- One parsed conversation-page response body: the optional `errors` array,
    whether the `max_entry_id` field is present, the optional `min_entry_id`
    field, and the `items` mapping. -/
structure PageResponse where
  errors : Option (List RespError)
  hasMaxEntryId : Bool
  minEntryId : Option Str
  items : List (Str × Fragment)
deriving DecidableEq, Repr

/-- One step of the crawl loop: either the next page response arrives, or a
    KeyboardInterrupt is raised during the blocking request. -/
inductive CrawlEvent where
  | response (r : PageResponse)
  | cancel
deriving DecidableEq, Repr

/-- How the crawl loop of `Crawler.crawl` ends. -/
inductive LoopResult where
  | finished (entries : List (Str × Entry))
  | errorAbort (code : Nat) (guidance : Bool)
  | keyErrorCrash
  | indexErrorCrash
  | ranOut (entries : List (Str × Entry))
deriving DecidableEq, Repr

/-- The `while` loop of `Crawler.crawl`, driven by the finite list of modeled
    events.  `finished` reaches the final `write_conversation` call (both
    terminal conditions and the caught KeyboardInterrupt); `errorAbort` is
    the uncaught `raise Exception` on an `errors` array (with the lock
    remediation guidance exactly for code 326); `keyErrorCrash` is the
    uncaught KeyError reading `min_entry_id`; `indexErrorCrash` the uncaught
    IndexError on an empty `errors` array.  Also returns the unconsumed
    events (requests never issued). -/
def crawlLoop (maxId : Str) :
    List CrawlEvent → List (Str × Entry) → Bool → LoopResult × List CrawlEvent
  | evs, acc, true => (.finished acc, evs)
  | [], acc, false => (.ranOut acc, [])
  | .cancel :: evs, acc, false => (.finished acc, evs)
  | .response r :: evs, acc, false =>
    match r.errors with
    | some [] => (.indexErrorCrash, evs)
    | some (e :: _) => (.errorAbort e.code (e.code == 326), evs)
    | none =>
      if r.hasMaxEntryId = false then (.finished acc, evs)
      else
        match r.minEntryId with
        | none => (.keyErrorCrash, evs)
        | some _ =>
          let pr := processTweets r.items maxId
          crawlLoop maxId evs (acc ++ pr.1) pr.2

/-- Overall result of one `Crawler.crawl` run. -/
inductive CrawlResult where
  | wrote (file : Option (List Str)) (entries : List (Str × Entry))
  | abortedError (code : Nat) (guidance : Bool)
  | crashedKey
  | crashedIndex
  | crashedRead
  | ranOut (entries : List (Str × Entry))
deriving DecidableEq, Repr

/-- Model of `Crawler.crawl`: read the marker from the old transcript, run
    the pagination loop, and invoke `write_conversation` whenever the loop
    ends normally or on a caught KeyboardInterrupt.  `wrote` carries the
    resulting file (its old content when nothing was accumulated). -/
def crawl (oldFile : Option (List Str)) (events : List CrawlEvent) : CrawlResult :=
  match getLatestTweetId oldFile with
  | none => .crashedRead
  | some maxId =>
    match crawlLoop maxId events [] false with
    | (.finished entries, _) => .wrote (writeConversation entries maxId (oldFile.getD [])) entries
    | (.errorAbort c g, _) => .abortedError c g
    | (.keyErrorCrash, _) => .crashedKey
    | (.indexErrorCrash, _) => .crashedIndex
    | (.ranOut entries, _) => .ranOut entries

/-- One thread-list response: its optional `errors` array and the expected
    fields (`threads`, `has_more`, `min_entry_id`) at the envelope path this
    request uses, or `none` when the shape drifted (a KeyError). -/
structure ThreadsPage where
  errors : Option (List RespError)
  payload : Option (List Str × Bool × Str)
deriving DecidableEq, Repr

/-- How `Crawler.get_threads` ends. -/
inductive ThreadsResult where
  | completed (threads : List Str)
  | graceful (threads : List Str)
  | raised (code : Nat) (guidance : Bool)
  | indexCrash
  | ranOut (threads : List Str)
deriving DecidableEq, Repr

/-- The loop of `Crawler.get_threads`: an `errors` array always raises (the
    326 remediation guidance is printed exactly for that code); a KeyError on
    the expected fields breaks out and returns what was collected
    (`graceful`); otherwise threads accumulate until `has_more` is false. -/
def getThreadsLoop : List ThreadsPage → List Str → ThreadsResult
  | [], acc => .ranOut acc
  | p :: rest, acc =>
    match p.errors with
    | some [] => .indexCrash
    | some (e :: _) => .raised e.code (e.code == 326)
    | none =>
      match p.payload with
      | none => .graceful acc
      | some (ths, hasMore, _) =>
        if hasMore then getThreadsLoop rest (acc ++ ths) else .completed (acc ++ ths)

/-- Heap of element lists, for the per-instance ownership model of
    `DirectMessage.elements`.  Index 0 holds the class-level default list. -/
abbrev Heap := Nat → List Str

/-- Model of `message.elements.append(element_object)` through a reference. -/
def heapAppend (h : Heap) (r : Nat) (e : Str) : Heap :=
  fun i => if i = r then h r ++ [e] else h i

/-- A `DirectMessage` as a record holding a reference into the heap for its
    `elements` attribute. -/
structure DMsgRef where
  tweetId : Str
  elementsRef : Nat
deriving DecidableEq, Repr

/-- Model of the message-construction block of `_process_tweets`:
    `DirectMessage(...)` leaves `elements` pointing at the class-level list
    (reference 0); the `message.elements = []` reassignment then binds a
    fresh list (at index `next`) before the element loop appends into it. -/
def buildMessage (h : Heap) (next : Nat) (tweetId : Str) (els : List Str) :
    Heap × Nat × DMsgRef :=
  let m : DMsgRef := { tweetId := tweetId, elementsRef := next }
  let h1 : Heap := fun i => if i = next then [] else h i
  (els.foldl (fun hh e => heapAppend hh next e) h1, next + 1, m)

/-- Sequential processing of a batch of messages, each with its id and the
    elements its fragment parses to, threading the heap. -/
def buildBatch (h : Heap) (next : Nat) :
    List (Str × List Str) → Heap × Nat × List DMsgRef
  | [] => (h, next, [])
  | (id, els) :: rest =>
    let s1 := buildMessage h next id els
    let s2 := buildBatch s1.1 s1.2.1 rest
    (s2.1, s2.2.1, s1.2.2 :: s2.2.2)

/-! Order facts for Python string comparison. -/

theorem pyLt_nil_right (l : Str) : pyLt l [] = false := by
  cases l <;> rfl

theorem pyLt_irrefl (l : Str) : pyLt l l = false := by
  induction l with
  | nil => rfl
  | cons a as ih => simp [pyLt, ih]

theorem pyLt_asymm : ∀ {a b : Str}, pyLt a b = true → pyLt b a = false := by
  intro a
  induction a with
  | nil =>
    intro b h
    cases b with
    | nil => simp [pyLt] at h
    | cons y ys => rfl
  | cons x xs ih =>
    intro b h
    cases b with
    | nil => simp [pyLt] at h
    | cons y ys =>
      by_cases h1 : x.toNat < y.toNat
      · have h2 : ¬ y.toNat < x.toNat := by omega
        simp [pyLt, h1, h2]
      · by_cases h2 : y.toNat < x.toNat
        · simp [pyLt, h1, h2] at h
        · simp [pyLt, h1, h2] at h ⊢
          exact ih h

theorem pyLt_trans : ∀ {a b c : Str}, pyLt a b = true → pyLt b c = true → pyLt a c = true := by
  intro a
  induction a with
  | nil =>
    intro b c _ h2
    cases c with
    | nil => rw [pyLt_nil_right] at h2; exact absurd h2 (by simp)
    | cons z zs => rfl
  | cons x xs ih =>
    intro b c h1 h2
    cases b with
    | nil => rw [pyLt_nil_right] at h1; exact absurd h1 (by simp)
    | cons y ys =>
      cases c with
      | nil => rw [pyLt_nil_right] at h2; exact absurd h2 (by simp)
      | cons z zs =>
        by_cases hxy : x.toNat < y.toNat
        · by_cases hyz : y.toNat < z.toNat
          · have : x.toNat < z.toNat := by omega
            simp [pyLt, this]
          · by_cases hzy : z.toNat < y.toNat
            · simp [pyLt, hyz, hzy] at h2
            · have : x.toNat < z.toNat := by omega
              simp [pyLt, this]
        · by_cases hyx : y.toNat < x.toNat
          · simp [pyLt, hxy, hyx] at h1
          · by_cases hyz : y.toNat < z.toNat
            · have hxz : x.toNat < z.toNat := by omega
              simp [pyLt, hxz]
            · by_cases hzy : z.toNat < y.toNat
              · simp [pyLt, hyz, hzy] at h2
              · have hxz : ¬ x.toNat < z.toNat := by omega
                have hzx : ¬ z.toNat < x.toNat := by omega
                simp [pyLt, hxy, hyx] at h1
                simp [pyLt, hyz, hzy] at h2
                simp [pyLt, hxz, hzx]
                exact ih h1 h2

theorem pyLt_eq_of_not : ∀ {a b : Str}, pyLt a b = false → pyLt b a = false → a = b := by
  intro a
  induction a with
  | nil =>
    intro b h1 _
    cases b with
    | nil => rfl
    | cons y ys => simp [pyLt] at h1
  | cons x xs ih =>
    intro b h1 h2
    cases b with
    | nil => simp [pyLt] at h2
    | cons y ys =>
      by_cases hxy : x.toNat < y.toNat
      · simp [pyLt, hxy] at h1
      · by_cases hyx : y.toNat < x.toNat
        · simp [pyLt, hyx, hxy] at h2
        · simp [pyLt, hxy, hyx] at h1 h2
          have hx : x = y := by
            have : x.toNat = y.toNat := by omega
            calc x = Char.ofNat x.toNat := (Char.ofNat_toNat x).symm
            _ = Char.ofNat y.toNat := by rw [this]
            _ = y := Char.ofNat_toNat y
          rw [hx, ih h1 h2]

/-! Facts about the descending insertion sort on keys. -/

theorem insertDesc_perm (x : Str) (l : List Str) : (insertDesc x l).Perm (x :: l) := by
  induction l with
  | nil => exact List.Perm.refl _
  | cons y ys ih =>
    by_cases h : pyLt y x = true
    · simp [insertDesc, h]
    · simp [insertDesc, h]
      exact (ih.cons y).trans (List.Perm.swap x y ys)

theorem sortDesc_perm (l : List Str) : (sortDesc l).Perm l := by
  induction l with
  | nil => exact List.Perm.refl _
  | cons x xs ih =>
    have : sortDesc (x :: xs) = insertDesc x (sortDesc xs) := rfl
    rw [this]
    exact (insertDesc_perm x (sortDesc xs)).trans (ih.cons x)

theorem mem_sortDesc {x : Str} {l : List Str} : x ∈ sortDesc l ↔ x ∈ l :=
  (sortDesc_perm l).mem_iff

/-- Weak descending sortedness (later elements are below or equal). -/
def DescSorted (l : List Str) : Prop := l.Pairwise (fun a b => pyLt b a = true ∨ b = a)

theorem insertDesc_sorted (x : Str) {l : List Str} (h : DescSorted l) :
    DescSorted (insertDesc x l) := by
  induction l with
  | nil => simp [DescSorted, insertDesc]
  | cons y ys ih =>
    rcases List.pairwise_cons.mp h with ⟨hy, hys⟩
    by_cases hc : pyLt y x = true
    · have hgoal : insertDesc x (y :: ys) = x :: y :: ys := by simp [insertDesc, hc]
      rw [DescSorted, hgoal]
      refine List.pairwise_cons.mpr ⟨?_, h⟩
      intro z hz
      rcases List.mem_cons.mp hz with heq | hz
      · subst heq; exact Or.inl hc
      · rcases hy z hz with hlt | heq
        · exact Or.inl (pyLt_trans hlt hc)
        · subst heq; exact Or.inl hc
    · have hgoal : insertDesc x (y :: ys) = y :: insertDesc x ys := by simp [insertDesc, hc]
      rw [DescSorted, hgoal]
      refine List.pairwise_cons.mpr ⟨?_, ih hys⟩
      intro z hz
      rcases List.mem_cons.mp ((insertDesc_perm x ys).mem_iff.mp hz) with heq | hz
      · subst heq
        by_cases hxy : pyLt z y = true
        · exact Or.inl hxy
        · exact Or.inr (pyLt_eq_of_not (Bool.eq_false_iff.mpr hc) (Bool.eq_false_iff.mpr hxy)).symm
      · exact hy z hz

theorem sortDesc_sorted (l : List Str) : DescSorted (sortDesc l) := by
  induction l with
  | nil => simp [DescSorted, sortDesc]
  | cons x xs ih => exact insertDesc_sorted x ih

theorem pairwiseAnd {α : Type} {R S : α → α → Prop} :
    ∀ {l : List α}, l.Pairwise R → l.Pairwise S → l.Pairwise (fun a b => R a b ∧ S a b) := by
  intro l
  induction l with
  | nil => intro _ _; exact List.Pairwise.nil
  | cons a t ih =>
    intro h1 h2
    rcases List.pairwise_cons.mp h1 with ⟨ha, h1t⟩
    rcases List.pairwise_cons.mp h2 with ⟨hb, h2t⟩
    exact List.pairwise_cons.mpr ⟨fun b hb2 => ⟨ha b hb2, hb b hb2⟩, ih h1t h2t⟩

/-- With distinct keys, the descending sort is strictly descending. -/
theorem sortDesc_pairwise_lt {l : List Str} (h : l.Nodup) :
    (sortDesc l).Pairwise (fun a b => pyLt b a = true) := by
  have hnd : (sortDesc l).Nodup := ((sortDesc_perm l).nodup_iff).mpr h
  have := pairwiseAnd (sortDesc_sorted l) hnd
  exact this.imp (by
    intro a b hab
    rcases hab.1 with hlt | heq
    · exact hlt
    · exact absurd heq.symm hab.2)

/-- In a strictly descending list containing `m`, the entries before `m` are
    exactly the entries above `m`. -/
theorem desc_takeWhile_eq_filter {m : Str} :
    ∀ {l : List Str}, l.Pairwise (fun a b => pyLt b a = true) → m ∈ l →
      l.takeWhile (fun id => id ≠ m) = l.filter (fun k => pyLt m k) := by
  intro l
  induction l with
  | nil => intro _ hm; exact absurd hm (List.not_mem_nil m)
  | cons h t ih =>
    intro hs hm
    rcases List.pairwise_cons.mp hs with ⟨hrel, ht⟩
    rcases List.mem_cons.mp hm with heq | hm
    · subst heq
      have h1 : (fun id => decide (id ≠ m)) m = false := by simp
      have h2 : pyLt m m = false := pyLt_irrefl m
      have h3 : t.filter (fun k => pyLt m k) = [] := by
        apply List.filter_eq_nil_iff.mpr
        intro k hk
        simp [pyLt_asymm (hrel k hk)]
      simp [List.takeWhile, h2, h3]
    · have hne : h ≠ m := by
        intro he
        have := hrel m hm
        rw [he] at this
        exact absurd this (by simp [pyLt_irrefl])
      have hlt : pyLt m h = true := hrel m hm
      simp [List.takeWhile, hne, hlt, List.filter_cons]
      simpa using ih ht hm

/-- A strictly descending nonempty list whose members are all at or below `m`,
    with `m` among them, starts with `m`. -/
theorem desc_head_eq_max {m : Str} {l : List Str} (hs : DescSorted l) (hm : m ∈ l)
    (hmax : ∀ k ∈ l, pyLt m k = false) : ∃ t, l = m :: t := by
  cases l with
  | nil => exact absurd hm (List.not_mem_nil m)
  | cons h t =>
    rcases List.mem_cons.mp hm with heq | hm
    · exact ⟨t, by rw [heq]⟩
    · rcases List.pairwise_cons.mp hs with ⟨hrel, _⟩
      rcases hrel m hm with hlt | heq
      · have := hmax h (by simp)
        rw [this] at hlt
        exact absurd hlt (by simp)
      · exact ⟨t, by rw [heq]⟩

/-! Dictionary lookup facts. -/

theorem lookupFrag_of_mem : ∀ {tw : List (Str × Fragment)}, (tw.map Prod.fst).Nodup →
    ∀ {k : Str} {f : Fragment}, (k, f) ∈ tw → lookupFrag tw k = some f := by
  intro tw
  induction tw with
  | nil => intro _ k f h; exact absurd h (List.not_mem_nil _)
  | cons p rest ih =>
    intro hnd k f h
    rcases List.pairwise_cons.mp hnd with ⟨hhead, hrest⟩
    rcases List.mem_cons.mp h with heq | hmem
    · rw [← heq]
      simp [lookupFrag]
    · have hne : p.1 ≠ k := by
        intro he
        exact absurd rfl (he ▸ hhead (k, f).1 (List.mem_map_of_mem Prod.fst hmem))
      obtain ⟨p1, p2⟩ := p
      simp [lookupFrag, hne]
      exact ih hrest hmem

theorem exists_lookupFrag_of_mem_keys : ∀ {tw : List (Str × Fragment)} {k : Str},
    k ∈ tw.map Prod.fst → ∃ f, lookupFrag tw k = some f := by
  intro tw
  induction tw with
  | nil => intro k h; exact absurd h (List.not_mem_nil _)
  | cons p rest ih =>
    obtain ⟨p1, p2⟩ := p
    intro k h
    by_cases he : p1 = k
    · exact ⟨p2, by simp [lookupFrag, he]⟩
    · have h' : k = p1 ∨ k ∈ rest.map Prod.fst := by
        rw [List.map_cons] at h
        rcases List.mem_cons.mp h with heq | hm
        · exact Or.inl heq
        · exact Or.inr hm
      have hk : k ∈ rest.map Prod.fst := by
        rcases h' with heq | hm
        · exact absurd heq.symm he
        · exact hm
      obtain ⟨f, hf⟩ := ih hk
      exact ⟨f, by simp [lookupFrag, he, hf]⟩

theorem lookupEntry_map_self {g : Str → Entry} : ∀ {l : List Str} {k : Str}, k ∈ l →
    lookupEntry (l.map (fun id => (id, g id))) k = some (g k) := by
  intro l
  induction l with
  | nil => intro k h; exact absurd h (List.not_mem_nil _)
  | cons a t ih =>
    intro k h
    by_cases he : a = k
    · subst he; simp [lookupEntry]
    · have hk : k ∈ t := by
        rcases List.mem_cons.mp h with heq | hm
        · exact absurd heq.symm he
        · exact hm
      simp [lookupEntry, he]
      exact ih hk

/-! Specification of the processing loop. -/

/-- The entry stored for a key, through the dictionary. -/
def entryAt (tw : List (Str × Fragment)) (id : Str) : Entry :=
  match lookupFrag tw id with
  | some f => parseEntry id f
  | none => .strEntry []

theorem processGo_keys_sublist (tw : List (Str × Fragment)) (maxId : Str) :
    ∀ l : List Str, ((processGo tw maxId l).1.map Prod.fst).Sublist l := by
  intro l
  induction l with
  | nil => simp [processGo]
  | cons id rest ih =>
    by_cases h : id = maxId
    · simp [processGo, h]
    · cases hf : lookupFrag tw id with
      | none =>
        simp [processGo, h, hf]
        exact ih.cons id
      | some f =>
        by_cases hk : f.kind = FragKind.interrupt
        · simp [processGo, h, hf, hk]
        · simp [processGo, h, hf, hk]
          exact ih

theorem processGo_eq (tw : List (Str × Fragment)) (maxId : Str) :
    ∀ l : List Str,
      (∀ id ∈ l, ∃ f, lookupFrag tw id = some f ∧ f.kind ≠ FragKind.interrupt) →
      processGo tw maxId l =
        ((l.takeWhile (fun id => id ≠ maxId)).map (fun id => (id, entryAt tw id)),
          decide (maxId ∈ l)) := by
  intro l
  induction l with
  | nil => intro _; simp [processGo]
  | cons id rest ih =>
    intro hl
    by_cases h : id = maxId
    · subst h
      simp [processGo, List.takeWhile]
    · obtain ⟨f, hf, hk⟩ := hl id (by simp)
      have hrest := ih (fun i hi => hl i (List.mem_cons_of_mem id hi))
      have hmm : (maxId ∈ id :: rest) ↔ (maxId ∈ rest) := by
        simp only [List.mem_cons, or_iff_right_iff_imp]
        intro he
        exact absurd he.symm h
      simp [processGo, h, hf, hk, List.takeWhile, hrest, entryAt, hmm]

/-! Small list helpers. -/

theorem takeLenAppend {α : Type} : ∀ (l1 l2 : List α), (l1 ++ l2).take l1.length = l1 := by
  intro l1 l2
  induction l1 with
  | nil => simp
  | cons a t ih => simp [List.take_succ_cons, ih]

theorem dropLenAppend {α : Type} : ∀ (l1 l2 : List α), (l1 ++ l2).drop l1.length = l2 := by
  intro l1 l2
  induction l1 with
  | nil => simp
  | cons a t ih => simp [ih]

theorem dropWhileApp (p : Char → Bool) : ∀ (l1 l2 : Str),
    (l1 ++ l2).dropWhile p =
      if l1.dropWhile p = [] then l2.dropWhile p else l1.dropWhile p ++ l2 := by
  intro l1 l2
  induction l1 with
  | nil => simp
  | cons a t ih =>
    cases hp : p a with
    | true => simp [List.dropWhile_cons, hp, ih]
    | false => simp [List.dropWhile_cons, hp]

/-! Facts about the strip model. -/

theorem stripR_append_ne {a b : Str} (h : stripR b ≠ []) : stripR (a ++ b) = a ++ stripR b := by
  have hb : b.reverse.dropWhile isPyWs ≠ [] := by
    intro hx
    exact h (by simp [stripR, hx])
  unfold stripR
  rw [List.reverse_append, dropWhileApp, if_neg hb, List.reverse_append, List.reverse_reverse]

theorem stripR_append_nil {a b : Str} (h : stripR b = []) : stripR (a ++ b) = stripR a := by
  have hb : b.reverse.dropWhile isPyWs = [] := by
    have := congrArg List.reverse h
    simpa [stripR] using this
  unfold stripR
  rw [List.reverse_append, dropWhileApp, if_pos hb]

theorem stripL_nil_of_stripR_nil {b : Str} (h : stripR b = []) : stripL b = [] := by
  have hb : b.reverse.dropWhile isPyWs = [] := by
    have := congrArg List.reverse h
    simpa [stripR] using this
  have hall : ∀ c ∈ b.reverse, isPyWs c = true := List.dropWhile_eq_nil_iff.mp hb
  exact List.dropWhile_eq_nil_iff.mpr (fun c hc => hall c (List.mem_reverse.mpr hc))

theorem pyStrip_nil_of_stripR_nil {b : Str} (h : stripR b = []) : pyStrip b = [] := by
  rw [pyStrip, stripL_nil_of_stripR_nil h]
  rfl

/-- The stripped value is a suffix of the right-stripped value. -/
theorem pyStrip_sfx_stripR (b : Str) : ∃ w, stripR b = w ++ pyStrip b := by
  by_cases h : stripR (stripL b) = []
  · exact ⟨stripR b, by simp [pyStrip, h]⟩
  · have hsplit : b.takeWhile isPyWs ++ stripL b = b := by
      show b.takeWhile isPyWs ++ b.dropWhile isPyWs = b
      exact List.takeWhile_append_dropWhile isPyWs b
    refine ⟨b.takeWhile isPyWs, ?_⟩
    calc stripR b = stripR (b.takeWhile isPyWs ++ stripL b) := by rw [hsplit]
    _ = b.takeWhile isPyWs ++ stripR (stripL b) := stripR_append_ne h
    _ = b.takeWhile isPyWs ++ pyStrip b := rfl

/-! Digit shape of the decimal rendering. -/

theorem natToStrCore_mem : ∀ (fuel n : Nat) (acc : Str) (c : Char),
    c ∈ natToStrCore fuel n acc → c.isDigit = true ∨ c ∈ acc := by
  intro fuel
  induction fuel with
  | zero => intro n acc c h; exact Or.inr h
  | succ fu ih =>
    intro n acc c h
    by_cases hn : n = 0
    · simp [natToStrCore, hn] at h
      exact Or.inr h
    · rw [natToStrCore, if_neg hn] at h
      rcases ih (n / 10) (digitChar (n % 10) :: acc) c h with hd | hm
      · exact Or.inl hd
      · rcases List.mem_cons.mp hm with heq | hacc
        · subst heq
          left
          have hlt : n % 10 < 10 := Nat.mod_lt n (by omega)
          unfold digitChar
          interval_cases h : n % 10 <;> decide
        · exact Or.inr hacc

theorem natToStrCore_sfx : ∀ (fuel n : Nat) (acc : Str), acc.IsSuffix (natToStrCore fuel n acc) := by
  intro fuel
  induction fuel with
  | zero => intro n acc; exact List.suffix_refl acc
  | succ fu ih =>
    intro n acc
    by_cases hn : n = 0
    · simp [natToStrCore, hn]
    · rw [natToStrCore, if_neg hn]
      exact (List.suffix_cons (digitChar (n % 10)) acc).trans (ih (n / 10) _)

theorem natToStr_head_digit (n : Nat) : ∃ c cs, natToStr n = c :: cs ∧ c.isDigit = true := by
  by_cases hn : n = 0
  · exact ⟨'0', [], by simp [natToStr, hn], by decide⟩
  · have hne : natToStr n ≠ [] := by
      rw [natToStr, if_neg hn, natToStrCore, if_neg hn]
      obtain ⟨w, hw⟩ := natToStrCore_sfx n (n / 10) [digitChar (n % 10)]
      rw [← hw]
      simp
    cases hh : natToStr n with
    | nil => exact absurd hh hne
    | cons c cs =>
      refine ⟨c, cs, rfl, ?_⟩
      have hc : c ∈ natToStr n := by rw [hh]; simp
      rw [natToStr, if_neg hn] at hc
      rcases natToStrCore_mem (n + 1) n [] c hc with hd | habs
      · exact hd
      · exact absurd habs (List.not_mem_nil c)

theorem pad4_head_digit (n : Nat) : ∃ c cs, pad4 n = c :: cs ∧ c.isDigit = true := by
  unfold pad4
  by_cases h1 : n < 10
  · exact ⟨'0', "00".data ++ natToStr n, by simp [h1], by decide⟩
  · by_cases h2 : n < 100
    · exact ⟨'0', "0".data ++ natToStr n, by simp [h1, h2], by decide⟩
    · by_cases h3 : n < 1000
      · exact ⟨'0', natToStr n, by simp [h1, h2, h3], by decide⟩
      · obtain ⟨c, cs, hc, hd⟩ := natToStr_head_digit n
        exact ⟨c, cs, by simp [h1, h2, h3, hc], hd⟩

theorem exists_head_append {x : Str} {c : Char} {cs : Str} (h : x = c :: cs)
    (hd : c.isDigit = true) (y : Str) : ∃ c2 t, x ++ y = c2 :: t ∧ c2.isDigit = true :=
  ⟨c, cs ++ y, by rw [h]; rfl, hd⟩

theorem formatTimestamp_shape (ts : Nat) :
    ∃ c cs, formatTimestamp ts = c :: cs ∧ c.isDigit = true := by
  obtain ⟨c, cs, hc, hd⟩ := pad4_head_digit (civilFromDays (ts / 86400)).1
  unfold formatTimestamp
  exact exists_head_append hc hd _

/-! Lines produced by the renderers never match the marker regex. -/

theorem isMarkerLine_bracket_ne {c : Char} (t : Str) (h : c ≠ 'L') :
    isMarkerLine ('[' :: c :: t) = false := by
  have htag : markerTag = '[' :: 'L' :: "atestTweetID] ".data := by decide
  have htake : ('[' :: c :: t).take 16 = '[' :: c :: t.take 14 := rfl
  have hne : ('[' :: c :: t).take 16 ≠ markerTag := by
    rw [htag, htake]
    intro he
    have h1 := (List.cons.injEq _ _ _ _).mp he
    have h2 := (List.cons.injEq _ _ _ _).mp h1.2
    exact h h2.1
  have hbeq : (('[' :: c :: t).take 16 == markerTag) = false := beq_eq_false_iff_ne.mpr hne
  simp [isMarkerLine, parseMarkerId, hbeq]
  intro he
  exact absurd (htake.symm.trans he) hne

theorem isMarkerLine_marker {c : Char} {cs : Str} (hd : c.isDigit = true) :
    isMarkerLine (markerTag ++ (c :: cs)) = true := by
  have hlen : markerTag.length = 16 := by decide
  have htake : (markerTag ++ (c :: cs)).take 16 = markerTag := by
    rw [← hlen]; exact takeLenAppend markerTag (c :: cs)
  have hdrop : (markerTag ++ (c :: cs)).drop 16 = c :: cs := by
    rw [← hlen]; exact dropLenAppend markerTag (c :: cs)
  simp [isMarkerLine, parseMarkerId, htake, hdrop, List.takeWhile_cons, hd]

theorem renderDM_not_marker (ts a : Str) (els : List Str) :
    isMarkerLine (renderDM ts a els) = false := by
  obtain ⟨c, cs, hF, hdig⟩ := formatTimestamp_shape (strToNat ts)
  have hL : c ≠ 'L' := by
    intro h
    rw [h] at hdig
    exact absurd hdig (by decide)
  have h1 : renderDM ts a els =
      ('[' :: c :: (cs ++ ("] <".data ++ (a ++ ("> ".data ++ elemsBlob els))))).dropLast := by
    unfold renderDM
    rw [hF]
    rfl
  have h2 : cs ++ ("] <".data ++ (a ++ ("> ".data ++ elemsBlob els))) ≠ [] := by
    intro he
    rcases List.append_eq_nil.mp he with ⟨_, h3⟩
    rcases List.append_eq_nil.mp h3 with ⟨h4, _⟩
    exact absurd h4 (by decide)
  rw [h1]
  cases hz : cs ++ ("] <".data ++ (a ++ ("> ".data ++ elemsBlob els))) with
  | nil => exact absurd hz h2
  | cons z zs =>
    have h3 : ('[' :: c :: z :: zs).dropLast = '[' :: c :: (z :: zs).dropLast := rfl
    rw [h3]
    exact isMarkerLine_bracket_ne _ hL

theorem renderConv_not_marker (t : Str) :
    isMarkerLine ("[DMConversationEntry] ".data ++ t) = false := by
  have h1 : "[DMConversationEntry] ".data ++ t =
      '[' :: 'D' :: ("MConversationEntry] ".data ++ t) := rfl
  rw [h1]
  exact isMarkerLine_bracket_ne _ (by decide)

theorem renderEntry_not_marker (e : Entry) {s : Str} (h : renderEntry e = some s) :
    isMarkerLine s = false := by
  cases e with
  | directMessage i ts a els =>
    simp [renderEntry] at h
    rw [← h]
    exact renderDM_not_marker ts a els
  | conversationEntry i t =>
    simp [renderEntry] at h
    rw [← h]
    exact renderConv_not_marker t
  | strEntry s2 => simp [renderEntry] at h

/-! The fallback entry keeps the tag, the id and the stripped raw fragment. -/

theorem stripL_fallback (id raw : Str) : stripL (fallbackText id raw) = fallbackText id raw := by
  have hcons : fallbackText id raw =
      '[' :: ("ParseError] Parsing of tweet ".data ++ [squote] ++ id ++ [squote] ++
        " failed. Raw HTML: ".data ++ raw) := by
    unfold fallbackText
    rfl
  have hws : isPyWs '[' = false := by decide
  rw [stripL, hcons, List.dropWhile_cons, hws]
  simp

theorem fallback_contains (id raw : Str) :
    "[ParseError]".data <:+: pyStrip (fallbackText id raw) ∧
    id <:+: pyStrip (fallbackText id raw) ∧
    pyStrip raw <:+: pyStrip (fallbackText id raw) := by
  have hsplit : "[ParseError] Parsing of tweet ".data =
      "[ParseError]".data ++ " Parsing of tweet ".data := by decide
  have hP : pyStrip (fallbackText id raw) =
      stripR ((("[ParseError] Parsing of tweet ".data ++ [squote] ++ id ++ [squote] ++
        " failed. Raw HTML: ".data) ++ raw)) := by
    rw [pyStrip, stripL_fallback]
    unfold fallbackText
    simp [List.append_assoc]
  by_cases hc : stripR raw = []
  · have heq : pyStrip (fallbackText id raw) =
        "[ParseError] Parsing of tweet ".data ++ [squote] ++ id ++ [squote] ++
          stripR " failed. Raw HTML: ".data := by
      rw [hP, stripR_append_nil hc]
      have hBne : stripR " failed. Raw HTML: ".data ≠ [] := by decide
      have := stripR_append_ne (a := "[ParseError] Parsing of tweet ".data ++ [squote] ++
        id ++ [squote]) hBne
      rw [this]
    refine ⟨?_, ?_, ?_⟩
    · rw [heq, hsplit]
      exact ⟨[], " Parsing of tweet ".data ++ [squote] ++ id ++ [squote] ++
        stripR " failed. Raw HTML: ".data, by simp [List.append_assoc]⟩
    · rw [heq]
      exact ⟨"[ParseError] Parsing of tweet ".data ++ [squote],
        [squote] ++ stripR " failed. Raw HTML: ".data, by simp [List.append_assoc]⟩
    · rw [pyStrip_nil_of_stripR_nil hc]
      exact ⟨[], pyStrip (fallbackText id raw), by simp⟩
  · have heq : pyStrip (fallbackText id raw) =
        "[ParseError] Parsing of tweet ".data ++ [squote] ++ id ++ [squote] ++
          " failed. Raw HTML: ".data ++ stripR raw := by
      rw [hP, stripR_append_ne hc]
    refine ⟨?_, ?_, ?_⟩
    · rw [heq, hsplit]
      exact ⟨[], " Parsing of tweet ".data ++ [squote] ++ id ++ [squote] ++
        " failed. Raw HTML: ".data ++ stripR raw, by simp [List.append_assoc]⟩
    · rw [heq]
      exact ⟨"[ParseError] Parsing of tweet ".data ++ [squote],
        [squote] ++ " failed. Raw HTML: ".data ++ stripR raw, by simp [List.append_assoc]⟩
    · obtain ⟨w, hw⟩ := pyStrip_sfx_stripR raw
      rw [heq, hw]
      exact ⟨"[ParseError] Parsing of tweet ".data ++ [squote] ++ id ++ [squote] ++
        " failed. Raw HTML: ".data ++ w, [], by simp [List.append_assoc]⟩

/-! Heap facts for the per-instance ownership of the elements lists. -/

theorem heapFoldAppend (r : Nat) : ∀ (els : List Str) (h : Heap),
    (els.foldl (fun hh e => heapAppend hh r e) h) r = h r ++ els ∧
    ∀ i, i ≠ r → (els.foldl (fun hh e => heapAppend hh r e) h) i = h i := by
  intro els
  induction els with
  | nil => intro h; exact ⟨by simp, fun i _ => rfl⟩
  | cons e t ih =>
    intro h
    constructor
    · have hx := (ih (heapAppend h r e)).1
      rw [List.foldl_cons, hx]
      simp [heapAppend]
    · intro i hi
      have hx := (ih (heapAppend h r e)).2 i hi
      rw [List.foldl_cons, hx]
      simp [heapAppend, hi]

theorem buildMessage_heap_at (h : Heap) (next : Nat) (id : Str) (els : List Str) :
    (buildMessage h next id els).1 next = els := by
  unfold buildMessage
  have hx := (heapFoldAppend next els (fun i => if i = next then [] else h i)).1
  simp at hx
  simp [hx]

theorem buildMessage_heap_ne (h : Heap) (next : Nat) (id : Str) (els : List Str)
    (i : Nat) (hi : i ≠ next) : (buildMessage h next id els).1 i = h i := by
  unfold buildMessage
  have hx := (heapFoldAppend next els (fun i => if i = next then [] else h i)).2 i hi
  simp [hx, hi]

theorem buildBatch_len : ∀ (batch : List (Str × List Str)) (h : Heap) (next : Nat),
    (buildBatch h next batch).2.2.length = batch.length := by
  intro batch
  induction batch with
  | nil => intro h next; rfl
  | cons p rest ih =>
    intro h next
    obtain ⟨id, els⟩ := p
    simp [buildBatch, ih]

theorem buildBatch_ref : ∀ (batch : List (Str × List Str)) (h : Heap) (next : Nat)
    (j : Nat) (hj : j < (buildBatch h next batch).2.2.length),
    ((buildBatch h next batch).2.2.get ⟨j, hj⟩).elementsRef = next + j := by
  intro batch
  induction batch with
  | nil => intro h next j hj; exact absurd hj (by simp [buildBatch])
  | cons p rest ih =>
    intro h next j hj
    obtain ⟨id, els⟩ := p
    cases j with
    | zero => simp [buildBatch, buildMessage, List.get]
    | succ jj =>
      have hj2 : jj < (buildBatch (buildMessage h next id els).1 (next + 1) rest).2.2.length := by
        have := hj
        simp [buildBatch, buildMessage] at this
        simpa [buildBatch_len] using this
      have := ih (buildMessage h next id els).1 (next + 1) jj (by simpa [buildMessage] using hj2)
      simp [buildBatch, List.get, buildMessage] at this ⊢
      rw [this]
      omega

theorem buildBatch_heap_lo : ∀ (batch : List (Str × List Str)) (h : Heap) (next i : Nat),
    i < next → (buildBatch h next batch).1 i = h i := by
  intro batch
  induction batch with
  | nil => intro h next i _; rfl
  | cons p rest ih =>
    intro h next i hi
    obtain ⟨id, els⟩ := p
    have h1 : (buildBatch h next ((id, els) :: rest)).1 =
        (buildBatch (buildMessage h next id els).1 (next + 1) rest).1 := rfl
    rw [h1, ih _ (next + 1) i (by omega)]
    exact buildMessage_heap_ne h next id els i (by omega)

theorem buildBatch_heap_at : ∀ (batch : List (Str × List Str)) (h : Heap) (next : Nat)
    (j : Nat) (hj : j < batch.length),
    (buildBatch h next batch).1 (next + j) = (batch.get ⟨j, hj⟩).2 := by
  intro batch
  induction batch with
  | nil => intro h next j hj; exact absurd hj (by simp)
  | cons p rest ih =>
    intro h next j hj
    obtain ⟨id, els⟩ := p
    have h1 : (buildBatch h next ((id, els) :: rest)).1 =
        (buildBatch (buildMessage h next id els).1 (next + 1) rest).1 := rfl
    cases j with
    | zero =>
      rw [h1, buildBatch_heap_lo rest _ (next + 1) (next + 0) (by omega)]
      simpa using buildMessage_heap_at h next id els
    | succ jj =>
      have hj2 : jj < rest.length := by simpa using hj
      have := ih (buildMessage h next id els).1 (next + 1) jj hj2
      rw [h1]
      have harith : next + (jj + 1) = next + 1 + jj := by omega
      rw [harith, this]
      simp [List.get]

/-! Remaining helpers. -/

theorem mem_of_lookupFrag : ∀ {tw : List (Str × Fragment)} {k : Str} {f : Fragment},
    lookupFrag tw k = some f → (k, f) ∈ tw := by
  intro tw
  induction tw with
  | nil => intro k f h; simp [lookupFrag] at h
  | cons p rest ih =>
    obtain ⟨p1, p2⟩ := p
    intro k f h
    by_cases he : p1 = k
    · rw [lookupFrag, if_pos he] at h
      have : p2 = f := by injection h
      rw [← this, ← he]
      simp
    · rw [lookupFrag, if_neg he] at h
      exact List.mem_cons_of_mem _ (ih h)

theorem parseEntry_tweetIdOpt {id : Str} {f : Fragment}
    (h1 : f.kind ≠ FragKind.interrupt) (h2 : f.kind ≠ FragKind.noMatch) :
    (parseEntry id f).tweetIdOpt = some id := by
  obtain ⟨raw, kind⟩ := f
  cases kind with
  | message a ts els => simp [parseEntry, Entry.tweetIdOpt]
  | sysEntry t => simp [parseEntry, Entry.tweetIdOpt]
  | noMatch => exact absurd rfl h2
  | failure => simp [parseEntry, Entry.tweetIdOpt]
  | interrupt => exact absurd rfl h1

theorem takeWhileAll {p : Str → Bool} : ∀ {l : List Str}, (∀ a ∈ l, p a = true) →
    l.takeWhile p = l := by
  intro l
  induction l with
  | nil => intro _; rfl
  | cons a t ih =>
    intro h
    rw [List.takeWhile_cons, h a (by simp), ih (fun b hb => h b (List.mem_cons_of_mem a hb))]
    simp

theorem getLast_append_single {α : Type} (l : List α) (a : α) :
    (l ++ [a]).getLast? = some a := by
  exact List.getLast?_concat l

/-- Whether the line an entry renders to is free of embedded newlines (so the
    line model of the file coincides with its physical lines). -/
def entryOneLine (e : Entry) : Bool :=
  match renderEntry e with
  | some s => ! s.contains '\n'
  | none => true

/-- Sample fragment that parses to a conversation entry. -/
def sampleSys (t : String) : Fragment := { raw := t.data, kind := FragKind.sysEntry t.data }

/-- Sample fragment whose parse raises an exception. -/
def sampleFail (t : String) : Fragment := { raw := t.data, kind := FragKind.failure }

/-- Sample fragment whose parse raises a KeyboardInterrupt. -/
def sampleInterrupt : Fragment := { raw := "x".data, kind := FragKind.interrupt }

/-- The five-id page of the incremental-stop scenario of the specification. -/
def pageC1 : List (Str × Fragment) :=
  [("105".data, sampleSys "a"), ("103".data, sampleSys "b"), ("101".data, sampleSys "c"),
   ("100".data, sampleSys "d"), ("99".data, sampleSys "e")]

/-! Claim theorems. -/

/-- Claim C4, counterexample: the message with id 123456789012345678, epoch
    timestamp 1609459200, author alice and single Text element hello world is
    NOT rendered as the claimed line without angle brackets around the author;
    `write_conversation` renders the author inside angle brackets. -/
theorem C4_counterexample :
    renderDM "1609459200".data "alice".data ["hello world".data] ≠
      "[2021-01-01 00:00:00] alice hello world".data := by decide

/-- Claim C4 (amended): the message with epoch timestamp 1609459200, author
    alice and single Text element hello world is rendered to the transcript as
    exactly the line with the author wrapped in angle brackets, the timestamp
    formatted as YYYY-MM-DD HH:MM:SS, and the space-joined elements. -/
theorem C4_amended :
    renderDM "1609459200".data "alice".data ["hello world".data] =
      "[2021-01-01 00:00:00] <alice> hello world".data := by decide

/-- Claim C5 (amended): the crawl loop's normal termination is keyed on the
    absence of the `max_entry_id` field: any response without an errors array
    and without `max_entry_id` terminates the pagination loop normally
    (beginning of thread), whatever `min_entry_id` holds, and `write_conversation`
    is then reached with the accumulated entries. -/
theorem C5_amended (maxId : Str) (evs : List CrawlEvent) (acc : List (Str × Entry))
    (r : PageResponse) (he : r.errors = none) (hm : r.hasMaxEntryId = false) :
    crawlLoop maxId (CrawlEvent.response r :: evs) acc false = (LoopResult.finished acc, evs) := by
  obtain ⟨er, hmax, minE, items⟩ := r
  simp only at he hm
  subst he
  subst hm
  simp [crawlLoop]

/-- Witness for C5_amended at a concrete terminal response. -/
theorem C5_amended_witness :
    crawlLoop "0".data
      [CrawlEvent.response ⟨none, false, none, []⟩] [] false =
      (LoopResult.finished [], []) :=
  C5_amended "0".data [] [] _ rfl rfl

/-- Claim C5, counterexample: a response that LACKS `min_entry_id` but carries
    `max_entry_id` does not terminate the loop normally; the code reads
    `json` at `min_entry_id` and crashes with an uncaught KeyError, so
    termination is not keyed on the absence of `min_entry_id`. -/
theorem C5_counterexample :
    crawlLoop "0".data
      [CrawlEvent.response ⟨none, true, none, []⟩] [] false =
      (LoopResult.keyErrorCrash, []) := by decide

/-- Claim C6 (amended): an errors array always raises the fatal exception,
    whatever the code — with the account-lock remediation guidance printed
    exactly for code 326 — so no error code leads to graceful loop
    termination; the graceful break that preserves the partial thread list is
    tied to the KeyError on missing expected fields (shape drift), not to the
    errors array. -/
theorem C6_amended (rest : List ThreadsPage) (acc : List Str) (p p2 : ThreadsPage)
    (e : RespError) (es : List RespError) (hp : p.errors = some (e :: es))
    (hp2e : p2.errors = none) (hp2p : p2.payload = none) :
    getThreadsLoop (p :: rest) acc = ThreadsResult.raised e.code (e.code == 326) ∧
    getThreadsLoop (p2 :: rest) acc = ThreadsResult.graceful acc := by
  obtain ⟨pe, pp⟩ := p
  obtain ⟨p2e, p2p⟩ := p2
  simp only at hp hp2e hp2p
  subst hp
  subst hp2e
  subst hp2p
  exact ⟨rfl, rfl⟩

/-- Witness for C6_amended: code 326 raises with the remediation guidance and
    a shape-drifted page returns the collected threads gracefully. -/
theorem C6_amended_witness :
    getThreadsLoop [⟨some [⟨326, "locked".data⟩], none⟩] ["t1".data] =
      ThreadsResult.raised 326 true ∧
    getThreadsLoop [⟨none, none⟩] ["t1".data] =
      ThreadsResult.graceful ["t1".data] := by
  have h := C6_amended [] ["t1".data] ⟨some [⟨326, "locked".data⟩], none⟩
    ⟨none, none⟩ ⟨326, "locked".data⟩ [] rfl rfl rfl
  exact ⟨h.1, h.2⟩

/-- Claim C6, counterexample: an errors array with the non-lock code 999 does
    not make the thread-list loop terminate gracefully with the partial
    results; it raises the same fatal exception as code 326 (without the
    remediation guidance), so the run aborts instead of keeping the collected
    threads. -/
theorem C6_counterexample :
    getThreadsLoop [⟨some [⟨999, "err".data⟩], some (["x".data], true, "5".data)⟩]
        ["t1".data] =
      ThreadsResult.raised 999 false ∧
    ThreadsResult.raised 999 false ≠ ThreadsResult.graceful ["t1".data] ∧
    ThreadsResult.raised 999 false ≠ ThreadsResult.completed ["t1".data, "x".data] := by
  exact ⟨rfl, by decide, by decide⟩

theorem map_fst_pairing {g : Str → Entry} (l : List Str) :
    (l.map (fun id => (id, g id))).map Prod.fst = l := by
  induction l with
  | nil => rfl
  | cons a t ih => simp only [List.map_cons, ih]

/-- Claim C3 (amended): for every fetched page with distinct keys, the entries
    emitted by the write-back appear in strictly ascending LEXICOGRAPHIC
    (Python string) order of their ids — the reverse of the descending string
    order used during retrieval and stop-detection; ascending numeric order is
    guaranteed only when the ids share a digit length. -/
theorem C3_amended (tweets : List (Str × Fragment)) (maxId : Str)
    (hnd : (tweets.map Prod.fst).Nodup) :
    (((processTweets tweets maxId).1.map Prod.fst).reverse).Pairwise
      (fun a b => pyLt a b = true) := by
  have hsub := processGo_keys_sublist tweets maxId (sortDesc (tweets.map Prod.fst))
  have hsorted := sortDesc_pairwise_lt hnd
  have hsubp := hsorted.sublist hsub
  exact List.pairwise_reverse.mpr hsubp

/-- Witness for C3_amended at a concrete page. -/
theorem C3_amended_witness :
    (((processTweets [("9".data, sampleSys "a"), ("100".data, sampleSys "b")]
      "0".data).1.map Prod.fst).reverse).Pairwise (fun a b => pyLt a b = true) :=
  C3_amended _ _ (by decide)

/-- Claim C3, counterexample: with page ids 9 and 100 the write-back emits id
    100 before id 9, which is strictly DESCENDING in numeric value, so the
    ascending-by-numeric-id property fails for ids of different digit
    lengths. -/
theorem C3_counterexample :
    ((processTweets [("9".data, sampleSys "a"), ("100".data, sampleSys "b")]
      "0".data).1.map Prod.fst).reverse = ["100".data, "9".data] ∧
    strToNat "9".data < strToNat "100".data := by
  exact ⟨by decide, by decide⟩

/-- Claim C7: with distinct keys, no interrupt, and the stored marker absent
    from the page, every fragment of the batch yields exactly one entry under
    its id — a failing fragment yields the fallback conversation entry whose
    stripped payload contains the ParseError tag, the message id and the
    (stripped) original raw fragment, and every other fragment parses
    normally — so no fragment is silently dropped. -/
theorem C7_theorem (tweets : List (Str × Fragment)) (maxId : Str)
    (hnd : (tweets.map Prod.fst).Nodup)
    (hmx : maxId ∉ tweets.map Prod.fst)
    (hni : ∀ p ∈ tweets, p.2.kind ≠ FragKind.interrupt) :
    (processTweets tweets maxId).2 = false ∧
    ((processTweets tweets maxId).1.map Prod.fst).Perm (tweets.map Prod.fst) ∧
    (∀ id f, (id, f) ∈ tweets →
      lookupEntry (processTweets tweets maxId).1 id = some (parseEntry id f)) ∧
    (∀ id f, (id, f) ∈ tweets → f.kind = FragKind.failure →
      parseEntry id f = Entry.conversationEntry id (pyStrip (fallbackText id f.raw)) ∧
      "[ParseError]".data <:+: pyStrip (fallbackText id f.raw) ∧
      id <:+: pyStrip (fallbackText id f.raw) ∧
      pyStrip f.raw <:+: pyStrip (fallbackText id f.raw)) := by
  have hl : ∀ id ∈ sortDesc (tweets.map Prod.fst),
      ∃ f, lookupFrag tweets id = some f ∧ f.kind ≠ FragKind.interrupt := by
    intro id hid
    obtain ⟨f, hf⟩ := exists_lookupFrag_of_mem_keys (mem_sortDesc.mp hid)
    exact ⟨f, hf, hni (id, f) (mem_of_lookupFrag hf)⟩
  have hmaster := processGo_eq tweets maxId (sortDesc (tweets.map Prod.fst)) hl
  have hkeys : (sortDesc (tweets.map Prod.fst)).takeWhile (fun id => id ≠ maxId) =
      sortDesc (tweets.map Prod.fst) := by
    apply takeWhileAll
    intro a ha
    simp only [decide_eq_true_eq]
    intro he
    exact hmx (he ▸ mem_sortDesc.mp ha)
  have hPT : processTweets tweets maxId =
      ((sortDesc (tweets.map Prod.fst)).map (fun id => (id, entryAt tweets id)), false) := by
    rw [processTweets, hmaster, hkeys]
    congr 1
    exact decide_eq_false_iff_not.mpr (fun h => hmx (mem_sortDesc.mp h))
  refine ⟨by rw [hPT], ?_, ?_, ?_⟩
  · rw [hPT]
    rw [map_fst_pairing]
    exact sortDesc_perm _
  · intro id f hmem
    rw [hPT]
    have hid : id ∈ sortDesc (tweets.map Prod.fst) :=
      mem_sortDesc.mpr (List.mem_map_of_mem Prod.fst hmem)
    rw [lookupEntry_map_self hid]
    simp [entryAt, lookupFrag_of_mem hnd hmem]
  · intro id f hmem hfail
    refine ⟨?_, (fallback_contains id f.raw).1, (fallback_contains id f.raw).2.1,
      (fallback_contains id f.raw).2.2⟩
    obtain ⟨raw, kind⟩ := f
    simp only at hfail
    subst hfail
    rfl

/-- Witness for C7_theorem: a batch with one failing and one normal fragment;
    the failing fragment gets exactly its fallback entry with tag, id, and
    raw payload, and the other fragment parses normally. -/
theorem C7_theorem_witness :
    (processTweets [("7".data, sampleFail "bad"), ("5".data, sampleSys "ok")] "0".data).2
      = false ∧
    lookupEntry (processTweets [("7".data, sampleFail "bad"),
        ("5".data, sampleSys "ok")] "0".data).1 "7".data =
      some (Entry.conversationEntry "7".data (pyStrip (fallbackText "7".data "bad".data))) ∧
    lookupEntry (processTweets [("7".data, sampleFail "bad"),
        ("5".data, sampleSys "ok")] "0".data).1 "5".data =
      some (Entry.conversationEntry "5".data (pyStrip "ok".data)) ∧
    "[ParseError]".data <:+: pyStrip (fallbackText "7".data "bad".data) ∧
    "7".data <:+: pyStrip (fallbackText "7".data "bad".data) ∧
    pyStrip "bad".data <:+: pyStrip (fallbackText "7".data "bad".data) := by
  have h := C7_theorem [("7".data, sampleFail "bad"), ("5".data, sampleSys "ok")] "0".data
    (by decide) (by decide) (by decide)
  have h7 := h.2.2.1 "7".data (sampleFail "bad") (by decide)
  have h5 := h.2.2.1 "5".data (sampleSys "ok") (by decide)
  have hf := h.2.2.2 "7".data (sampleFail "bad") (by decide) rfl
  exact ⟨h.1, h7, h5, hf.2.1, hf.2.2.1, hf.2.2.2⟩

/-- Claim C8 (amended): a cancellation signal arriving at the next blocking
    request, or a KeyboardInterrupt raised during parse iteration of a page,
    makes the crawl issue no further page requests (the remaining events stay
    unconsumed) and proceed to the write-back with the entries accumulated so
    far; however a run that reaches the crawl loop does NOT always end in
    write-back — an errors-array response raises past the
    KeyboardInterrupt handler and skips it. -/
theorem C8_amended (maxId : Str) (evs : List CrawlEvent) (acc : List (Str × Entry))
    (r : PageResponse) (c : Str)
    (he : r.errors = none) (hm : r.hasMaxEntryId = true) (hmin : r.minEntryId = some c)
    (hint : (processTweets r.items maxId).2 = true) :
    crawlLoop maxId (CrawlEvent.cancel :: evs) acc false = (LoopResult.finished acc, evs) ∧
    crawlLoop maxId (CrawlEvent.response r :: evs) acc false =
      (LoopResult.finished (acc ++ (processTweets r.items maxId).1), evs) := by
  constructor
  · rfl
  · obtain ⟨er, hx, minE, items⟩ := r
    simp only at he hm hmin hint
    subst he
    subst hm
    subst hmin
    simp [crawlLoop, hint]

/-- Witness for C8_amended: a cancellation and a page whose parse hits a
    KeyboardInterrupt both end in the write-back path with the partial data. -/
theorem C8_amended_witness :
    crawlLoop "0".data (CrawlEvent.cancel :: [CrawlEvent.cancel]) [] false =
      (LoopResult.finished [], [CrawlEvent.cancel]) ∧
    crawlLoop "0".data
      (CrawlEvent.response ⟨none, true, some "1".data, [("9".data, sampleInterrupt)]⟩ ::
        [CrawlEvent.cancel]) [] false =
      (LoopResult.finished
        ([] ++ (processTweets [("9".data, sampleInterrupt)] "0".data).1),
        [CrawlEvent.cancel]) :=
  C8_amended "0".data [CrawlEvent.cancel] [] ⟨none, true, some "1".data,
    [("9".data, sampleInterrupt)]⟩ "1".data rfl rfl rfl (by decide)

/-- Claim C8, counterexample: a run that reaches the crawl loop and receives
    an errors-array response ends in the uncaught exception, not in the
    write-back, refuting the clause that a run reaching the loop always ends
    by invoking the write-back. -/
theorem C8_counterexample :
    crawl none [CrawlEvent.response ⟨some [⟨42, "e".data⟩], true, some "5".data, []⟩] =
      CrawlResult.abortedError 42 false := by decide

/-- Claim C1 (amended): when the stored marker id is among a page's ids
    (compared as strings) and the loop is not interrupted, the archiver
    processes exactly the ids LEXICOGRAPHICALLY greater than the marker, in
    descending string order, sets the previous-limit-found flag, and the
    write-back appends the rendered entries followed by a marker line holding
    the first-processed id, which is the lexicographically greatest processed
    id (the numerically greatest only when ids share a digit length). -/
theorem C1_amended (tweets : List (Str × Fragment)) (maxId : Str) (oldLines : List Str)
    (hnd : (tweets.map Prod.fst).Nodup)
    (hmem : maxId ∈ tweets.map Prod.fst)
    (hfr : ∀ p ∈ tweets, p.2.kind ≠ FragKind.interrupt ∧ p.2.kind ≠ FragKind.noMatch)
    (hab : ∃ k ∈ tweets.map Prod.fst, pyLt maxId k = true) :
    ∃ k0 ktail,
      (processTweets tweets maxId).1.map Prod.fst = k0 :: ktail ∧
      (processTweets tweets maxId).2 = true ∧
      k0 :: ktail = (sortDesc (tweets.map Prod.fst)).filter (fun k => pyLt maxId k) ∧
      (∀ k ∈ k0 :: ktail, pyLt maxId k = true) ∧
      (∀ k ∈ ktail, pyLt k k0 = true) ∧
      writeConversation (processTweets tweets maxId).1 maxId oldLines =
        some ((if maxId = "0".data then [] else oldLines.dropLast) ++
          ((processTweets tweets maxId).1.reverse.filterMap (fun p => renderEntry p.2) ++
            [markerTag ++ k0])) := by
  have hl : ∀ id ∈ sortDesc (tweets.map Prod.fst),
      ∃ f, lookupFrag tweets id = some f ∧ f.kind ≠ FragKind.interrupt := by
    intro id hid
    obtain ⟨f, hf⟩ := exists_lookupFrag_of_mem_keys (mem_sortDesc.mp hid)
    exact ⟨f, hf, (hfr (id, f) (mem_of_lookupFrag hf)).1⟩
  have hmaster := processGo_eq tweets maxId (sortDesc (tweets.map Prod.fst)) hl
  have hmemS : maxId ∈ sortDesc (tweets.map Prod.fst) := mem_sortDesc.mpr hmem
  have hfilter : (sortDesc (tweets.map Prod.fst)).takeWhile (fun id => id ≠ maxId) =
      (sortDesc (tweets.map Prod.fst)).filter (fun k => pyLt maxId k) :=
    desc_takeWhile_eq_filter (sortDesc_pairwise_lt hnd) hmemS
  have hPT : processTweets tweets maxId =
      (((sortDesc (tweets.map Prod.fst)).filter (fun k => pyLt maxId k)).map
        (fun id => (id, entryAt tweets id)), true) := by
    rw [processTweets, hmaster, hfilter]
    congr 1
    exact decide_eq_true hmemS
  obtain ⟨kw, hkw, hkwgt⟩ := hab
  have hkwF : kw ∈ (sortDesc (tweets.map Prod.fst)).filter (fun k => pyLt maxId k) :=
    List.mem_filter.mpr ⟨mem_sortDesc.mpr hkw, hkwgt⟩
  cases hF : (sortDesc (tweets.map Prod.fst)).filter (fun k => pyLt maxId k) with
  | nil => rw [hF] at hkwF; exact absurd hkwF (List.not_mem_nil kw)
  | cons k0 ktail =>
    have hkeys : (processTweets tweets maxId).1.map Prod.fst = k0 :: ktail := by
      rw [hPT, map_fst_pairing, hF]
    have hmemfil : ∀ k ∈ k0 :: ktail, pyLt maxId k = true := by
      intro k hk
      rw [← hF] at hk
      exact (List.mem_filter.mp hk).2
    have hpair : (k0 :: ktail).Pairwise (fun a b => pyLt b a = true) := by
      rw [← hF]
      exact (sortDesc_pairwise_lt hnd).sublist (List.filter_sublist _)
    have htail : ∀ k ∈ ktail, pyLt k k0 = true :=
      (List.pairwise_cons.mp hpair).1
    -- the entry stored under k0 carries k0 as its tweet id
    obtain ⟨f0, hf0, hf0k⟩ := hl k0 (by
      have : k0 ∈ k0 :: ktail := by simp
      rw [← hF] at this
      exact (List.mem_filter.mp this).1)
    have htid : (entryAt tweets k0).tweetIdOpt = some k0 := by
      rw [entryAt, hf0]
      exact parseEntry_tweetIdOpt hf0k (hfr (k0, f0) (mem_of_lookupFrag hf0)).2
    have hset : (processTweets tweets maxId).1 =
        (k0, entryAt tweets k0) :: ktail.map (fun id => (id, entryAt tweets id)) := by
      rw [hPT, hF, List.map_cons]
    refine ⟨k0, ktail, hkeys, by rw [hPT], rfl, hmemfil, htail, ?_⟩
    rw [hset]
    by_cases hmax : maxId = "0".data
    · simp [writeConversation, htid, hmax]
    · simp [writeConversation, htid, hmax]

/-- Witness for C1_amended at the five-id page of the specification scenario
    (marker 100, ids 105, 103, 101, 100, 99). -/
theorem C1_amended_witness :
    ∃ k0 ktail,
      (processTweets pageC1 "100".data).1.map Prod.fst = k0 :: ktail ∧
      (processTweets pageC1 "100".data).2 = true ∧
      k0 :: ktail = (sortDesc (pageC1.map Prod.fst)).filter (fun k => pyLt "100".data k) ∧
      (∀ k ∈ k0 :: ktail, pyLt "100".data k = true) ∧
      (∀ k ∈ ktail, pyLt k k0 = true) ∧
      writeConversation (processTweets pageC1 "100".data).1 "100".data
          ["old line".data, "[LatestTweetID] 100".data] =
        some ((if "100".data = "0".data then []
            else ["old line".data, "[LatestTweetID] 100".data].dropLast) ++
          ((processTweets pageC1 "100".data).1.reverse.filterMap
              (fun p => renderEntry p.2) ++ [markerTag ++ k0])) :=
  C1_amended pageC1 "100".data ["old line".data, "[LatestTweetID] 100".data]
    (by decide) (by decide) (by decide) (by decide)

/-- Claim C1, counterexample: for marker 100 and page ids 105, 103, 101, 100,
    99, the processed ids are 99, 105, 103, 101 (in that order: string sorting
    puts 99 above 105) — not exactly 105, 103, 101 — and the rewritten marker
    is 99, not 105. -/
theorem C1_counterexample :
    (processTweets pageC1 "100".data).1.map Prod.fst =
      ["99".data, "105".data, "103".data, "101".data] ∧
    (processTweets pageC1 "100".data).1.map Prod.fst ≠
      ["105".data, "103".data, "101".data] ∧
    writeConversation (processTweets pageC1 "100".data).1 "100".data
        ["old line".data, "[LatestTweetID] 100".data] =
      some ["old line".data, "[DMConversationEntry] c".data, "[DMConversationEntry] b".data,
        "[DMConversationEntry] a".data, "[DMConversationEntry] e".data,
        "[LatestTweetID] 99".data] ∧
    strToNat "99".data < strToNat "105".data := by
  exact ⟨by decide, by decide, by decide, by decide⟩

/-- Claim C2 (amended): after a write-back of a nonempty batch whose entries
    are keyed consistently, rendered on single lines, and inserted in strictly
    descending string order of id — and whose old transcript has no marker
    line outside its final line — the new file is the old file without its
    final line (or a fresh file when the sentinel marker was read) followed by
    the rendered entries and exactly one marker line, which is the final line;
    the marker id is the first-inserted id, the LEXICOGRAPHICALLY greatest id
    of the batch (the numerically greatest only for ids of equal digit
    length). -/
theorem C2_amended (tweets : List (Str × Entry)) (maxId : Str) (oldLines : List Str)
    (k0 : Str) (e0 : Entry) (rest : List (Str × Entry))
    (hT : tweets = (k0, e0) :: rest)
    (hid0 : e0.tweetIdOpt = some k0)
    (hdig : ∃ c cs, k0 = c :: cs ∧ c.isDigit = true)
    (_hnl : ∀ p ∈ tweets, entryOneLine p.2 = true)
    (hold : maxId ≠ "0".data → ∀ l ∈ oldLines.dropLast, isMarkerLine l = false)
    (hsorted : (tweets.map Prod.fst).Pairwise (fun a b => pyLt b a = true)) :
    writeConversation tweets maxId oldLines =
      some ((if maxId = "0".data then [] else oldLines.dropLast) ++
        (tweets.reverse.filterMap (fun p => renderEntry p.2) ++ [markerTag ++ k0])) ∧
    (((if maxId = "0".data then [] else oldLines.dropLast) ++
        (tweets.reverse.filterMap (fun p => renderEntry p.2) ++
          [markerTag ++ k0])).filter isMarkerLine) = [markerTag ++ k0] ∧
    ((if maxId = "0".data then [] else oldLines.dropLast) ++
        (tweets.reverse.filterMap (fun p => renderEntry p.2) ++
          [markerTag ++ k0])).getLast? = some (markerTag ++ k0) ∧
    (∀ k ∈ tweets.map Prod.fst, pyLt k0 k = false) := by
  obtain ⟨c, cs, hk0c, hdigc⟩ := hdig
  have hmarker : isMarkerLine (markerTag ++ k0) = true := by
    rw [hk0c]
    exact isMarkerLine_marker hdigc
  subst hT
  refine ⟨?_, ?_, ?_, ?_⟩
  · by_cases hmax : maxId = "0".data
    · simp [writeConversation, hid0, hmax]
    · simp [writeConversation, hid0, hmax]
  · have hpre : ((if maxId = "0".data then [] else oldLines.dropLast).filter isMarkerLine)
        = [] := by
      by_cases hmax : maxId = "0".data
      · simp [hmax]
      · simp only [if_neg hmax]
        exact List.filter_eq_nil_iff.mpr (fun l hl => by simp [hold hmax l hl])
    have hcontent : ((((k0, e0) :: rest).reverse.filterMap
        (fun p => renderEntry p.2)).filter isMarkerLine) = [] := by
      apply List.filter_eq_nil_iff.mpr
      intro l hl
      obtain ⟨p, _, hrp⟩ := List.mem_filterMap.mp hl
      simp [renderEntry_not_marker p.2 hrp]
    rw [List.filter_append, List.filter_append, hpre, hcontent]
    simp [hmarker]
  · rw [← List.append_assoc]
    exact getLast_append_single _ _
  · intro k hk
    rw [List.map_cons] at hk hsorted
    rcases List.mem_cons.mp hk with heq | hkr
    · rw [heq]
      exact pyLt_irrefl _
    · have := (List.pairwise_cons.mp hsorted).1 k hkr
      exact pyLt_asymm this

/-- Witness for C2_amended: one new message with id 205 appended over a
    transcript ending in marker 200. -/
theorem C2_amended_witness :
    writeConversation [("205".data, Entry.conversationEntry "205".data "hello".data)]
        "200".data ["[DMConversationEntry] old".data, "[LatestTweetID] 200".data] =
      some ((if "200".data = "0".data then []
          else ["[DMConversationEntry] old".data, "[LatestTweetID] 200".data].dropLast) ++
        ([("205".data, Entry.conversationEntry "205".data "hello".data)].reverse.filterMap
            (fun p => renderEntry p.2) ++ [markerTag ++ "205".data])) ∧
    (((if "200".data = "0".data then []
          else ["[DMConversationEntry] old".data, "[LatestTweetID] 200".data].dropLast) ++
        ([("205".data, Entry.conversationEntry "205".data "hello".data)].reverse.filterMap
            (fun p => renderEntry p.2) ++
          [markerTag ++ "205".data])).filter isMarkerLine) = [markerTag ++ "205".data] ∧
    ((if "200".data = "0".data then []
          else ["[DMConversationEntry] old".data, "[LatestTweetID] 200".data].dropLast) ++
        ([("205".data, Entry.conversationEntry "205".data "hello".data)].reverse.filterMap
            (fun p => renderEntry p.2) ++
          [markerTag ++ "205".data])).getLast? = some (markerTag ++ "205".data) ∧
    (∀ k ∈ [("205".data, Entry.conversationEntry "205".data "hello".data)].map Prod.fst,
      pyLt "205".data k = false) :=
  C2_amended _ "200".data _ "205".data _ [] rfl rfl
    ⟨'2', "05".data, by decide, by decide⟩ (by decide) (by decide) (by decide)

/-- Claim C2, counterexample: a fresh write of the batch with ids 101 and 7
    ends with marker 7, while the file also represents id 101 whose numeric
    value exceeds 7 — the marker id is not the highest message id in the
    file when ids have different digit lengths. -/
theorem C2_counterexample :
    writeConversation (processTweets [("101".data, sampleSys "p"), ("7".data, sampleSys "q")]
        "0".data).1 "0".data [] =
      some ["[DMConversationEntry] p".data, "[DMConversationEntry] q".data,
        "[LatestTweetID] 7".data] ∧
    strToNat "7".data < strToNat "101".data := by
  exact ⟨by decide, by decide⟩

/-- Claim C9 (amended): when the transcript ends in a valid marker and the
    first fetched page contains the marker id as its lexicographically
    greatest id (in particular, when all ids share one digit length and the
    remote has nothing newer), the run stops immediately with no accumulated
    entries and the write-back performs no modification: the resulting file
    is byte-identical to the old one. -/
theorem C9_amended (oldLines : List Str) (maxId : Str) (page : PageResponse)
    (evs : List CrawlEvent) (c : Str)
    (hm : getLatestTweetId (some oldLines) = some maxId)
    (he : page.errors = none) (hmax : page.hasMaxEntryId = true)
    (hmin : page.minEntryId = some c)
    (hmem : maxId ∈ page.items.map Prod.fst)
    (hall : ∀ k ∈ page.items.map Prod.fst, pyLt maxId k = false) :
    crawl (some oldLines) (CrawlEvent.response page :: evs) =
      CrawlResult.wrote (some oldLines) [] := by
  obtain ⟨er, hx, minE, items⟩ := page
  simp only at he hmax hmin hmem hall
  subst he
  subst hmax
  subst hmin
  have hmemS : maxId ∈ sortDesc (items.map Prod.fst) := mem_sortDesc.mpr hmem
  have hallS : ∀ k ∈ sortDesc (items.map Prod.fst), pyLt maxId k = false :=
    fun k hk => hall k (mem_sortDesc.mp hk)
  obtain ⟨t, ht⟩ := desc_head_eq_max (sortDesc_sorted _) hmemS hallS
  have hpt : processTweets items maxId = ([], true) := by
    rw [processTweets, ht]
    simp [processGo]
  unfold crawl
  rw [hm]
  simp [crawlLoop, hpt, writeConversation]

/-- Witness for C9_amended: transcript ending in marker 500 and a page whose
    ids 500 and 499 contain nothing newer; the file is left unchanged. -/
theorem C9_amended_witness :
    crawl (some ["[DMConversationEntry] hi".data, "[LatestTweetID] 500".data])
      [CrawlEvent.response ⟨none, true, some "498".data,
        [("500".data, sampleSys "d"), ("499".data, sampleSys "c")]⟩] =
      CrawlResult.wrote
        (some ["[DMConversationEntry] hi".data, "[LatestTweetID] 500".data]) [] :=
  C9_amended _ "500".data _ [] "498".data (by decide) rfl rfl rfl (by decide) (by decide)

/-- Claim C9, counterexample: with a transcript ending in marker 100 and a
    remote page holding only id 99 — no message numerically newer than the
    marker — the run re-processes 99 (string comparison puts 99 above 100),
    appends its line again and rewrites the marker to 99: the file is not
    byte-identical after the run. -/
theorem C9_counterexample :
    crawl (some ["[DMConversationEntry] hi".data, "[LatestTweetID] 100".data])
      [CrawlEvent.response ⟨none, true, some "98".data, [("99".data, sampleSys "bye")]⟩,
       CrawlEvent.response ⟨none, false, none, []⟩] =
      CrawlResult.wrote
        (some ["[DMConversationEntry] hi".data, "[DMConversationEntry] bye".data,
          "[LatestTweetID] 99".data])
        [("99".data, Entry.conversationEntry "99".data "bye".data)] ∧
    strToNat "99".data < strToNat "100".data ∧
    ["[DMConversationEntry] hi".data, "[DMConversationEntry] bye".data,
        "[LatestTweetID] 99".data] ≠
      ["[DMConversationEntry] hi".data, "[LatestTweetID] 100".data] := by
  exact ⟨by decide, by decide, by decide⟩

/-- Claim C10: across a batch, every constructed DirectMessage is given a
    fresh elements list (the reassignment before any append): the element
    references are pairwise distinct, never the class-level default list
    (reference 0), the class-level list stays empty, and the final heap holds
    under each message's reference exactly the elements parsed from that
    message's own fragment — appends for one message never mutate another
    message's element sequence. -/
theorem C10_theorem (batch : List (Str × List Str)) :
    (buildBatch (fun _ => []) 1 batch).2.2.length = batch.length ∧
    (∀ j, ∀ hj : j < (buildBatch (fun _ => []) 1 batch).2.2.length,
      ((buildBatch (fun _ => []) 1 batch).2.2.get ⟨j, hj⟩).elementsRef = 1 + j) ∧
    (∀ j k, ∀ hj : j < (buildBatch (fun _ => []) 1 batch).2.2.length,
      ∀ hk : k < (buildBatch (fun _ => []) 1 batch).2.2.length, j ≠ k →
      ((buildBatch (fun _ => []) 1 batch).2.2.get ⟨j, hj⟩).elementsRef ≠
        ((buildBatch (fun _ => []) 1 batch).2.2.get ⟨k, hk⟩).elementsRef) ∧
    (∀ j, ∀ hj : j < (buildBatch (fun _ => []) 1 batch).2.2.length,
      ((buildBatch (fun _ => []) 1 batch).2.2.get ⟨j, hj⟩).elementsRef ≠ 0) ∧
    (buildBatch (fun _ => []) 1 batch).1 0 = [] ∧
    (∀ j, ∀ hj : j < batch.length,
      (buildBatch (fun _ => []) 1 batch).1 (1 + j) = (batch.get ⟨j, hj⟩).2) := by
  refine ⟨buildBatch_len batch _ 1, ?_, ?_, ?_, ?_, ?_⟩
  · intro j hj
    exact buildBatch_ref batch _ 1 j hj
  · intro j k hj hk hne
    rw [buildBatch_ref batch _ 1 j hj, buildBatch_ref batch _ 1 k hk]
    omega
  · intro j hj
    rw [buildBatch_ref batch _ 1 j hj]
    omega
  · exact buildBatch_heap_lo batch _ 1 0 (by omega)
  · intro j hj
    exact buildBatch_heap_at batch _ 1 j hj

/-- Witness for C10_theorem: two messages; each reference holds exactly its
    own elements and the class-level list stays empty. -/
theorem C10_theorem_witness :
    (buildBatch (fun _ => []) 1 [("7".data, ["a".data]), ("8".data, ["b".data, "c".data])]).1
        (1 + 0) = (([("7".data, ["a".data]), ("8".data, ["b".data, "c".data])].get
          ⟨0, by decide⟩)).2 ∧
    (buildBatch (fun _ => []) 1 [("7".data, ["a".data]), ("8".data, ["b".data, "c".data])]).1
        (1 + 1) = (([("7".data, ["a".data]), ("8".data, ["b".data, "c".data])].get
          ⟨1, by decide⟩)).2 ∧
    (buildBatch (fun _ => []) 1
        [("7".data, ["a".data]), ("8".data, ["b".data, "c".data])]).1 0 = [] := by
  have h := C10_theorem [("7".data, ["a".data]), ("8".data, ["b".data, "c".data])]
  exact ⟨h.2.2.2.2.2 0 (by decide), h.2.2.2.2.2 1 (by decide), h.2.2.2.2.1⟩

end DMArchiver
